import Mathlib

set_option maxRecDepth 4000

/-
  Verification of the Data Synchronization Core of the saasbot repository.

  The Python sources are shallowly embedded: pure computations become Lean
  functions, remote calls are abstracted as oracle parameters, and wall-clock
  time is threaded explicitly (UTC timestamps as integer seconds, delays as
  rationals).  Each section names the source file and function it embeds.
-/

/- ===================================================================
   Rate-Limited Retry Executor
   (google_sheets_writer.py, GoogleSheetsWriter._execute_with_retry,
    lines 72-115, and _rate_limit_delay, lines 60-70)
   =================================================================== -/

/-- Outcome of one invocation of the wrapped operation: a successful result,
an HTTP error with a status code (googleapiclient HttpError), or some other
exception. -/
inductive AttemptOutcome where
  | ok (v : Nat)
  | httpErr (status : Nat)
  | exc
deriving DecidableEq

/-- Error surfaced by the retry executor after it gives up. -/
inductive RetryError where
  | http (status : Nat)
  | other
deriving DecidableEq

/-- Trace of one run of `_execute_with_retry`: the final result, how many
times the wrapped operation was invoked, and the backoff sleeps performed
(in seconds, in order). -/
instance {ε α : Type} [DecidableEq ε] [DecidableEq α] : DecidableEq (Except ε α) := fun x y =>
  match x, y with
  | .ok a, .ok b =>
    if h : a = b then .isTrue (by rw [h]) else .isFalse (by intro hc; cases hc; exact h rfl)
  | .error a, .error b =>
    if h : a = b then .isTrue (by rw [h]) else .isFalse (by intro hc; cases hc; exact h rfl)
  | .ok _, .error _ => .isFalse (by intro hc; cases hc)
  | .error _, .ok _ => .isFalse (by intro hc; cases hc)

structure RetryRun where
  result : Except RetryError Nat
  calls : Nat
  delays : List ℚ
deriving DecidableEq

/-- Loop body of `_execute_with_retry`.  `remaining` is the number of retries
still allowed (`max_retries - attempt` in the Python loop), `attempt` the
0-based attempt counter.  A 429 HttpError with retries remaining sleeps
`baseDelay * 2 ^ attempt` and continues; a 429 with no retries left re-raises;
any other HttpError re-raises immediately; a non-HTTP exception follows the
same backoff policy as a 429. -/
def retryGo (script : Nat → AttemptOutcome) (baseDelay : ℚ) :
    Nat → Nat → RetryRun
  | remaining, attempt =>
    match script attempt with
    | .ok v => ⟨.ok v, 1, []⟩
    | .httpErr s =>
      if s = 429 then
        match remaining with
        | 0 => ⟨.error (.http 429), 1, []⟩
        | r + 1 =>
          let rest := retryGo script baseDelay r (attempt + 1)
          ⟨rest.result, rest.calls + 1, baseDelay * 2 ^ attempt :: rest.delays⟩
      else ⟨.error (.http s), 1, []⟩
    | .exc =>
      match remaining with
      | 0 => ⟨.error .other, 1, []⟩
      | r + 1 =>
        let rest := retryGo script baseDelay r (attempt + 1)
        ⟨rest.result, rest.calls + 1, baseDelay * 2 ^ attempt :: rest.delays⟩

/-- `_execute_with_retry(operation, name)`: run the operation with up to
`maxRetries` retries.  The `script` gives the outcome of the i-th invocation
of the wrapped operation. -/
def executeWithRetry (maxRetries : Nat) (baseDelay : ℚ)
    (script : Nat → AttemptOutcome) : RetryRun :=
  retryGo script baseDelay maxRetries 0

/- ===================================================================
   Minimum request spacing
   (google_sheets_writer.py, GoogleSheetsWriter._rate_limit_delay,
    lines 60-70; min_request_interval = 1.2 seconds, shared
    last_request_time across the whole instance)
   =================================================================== -/

/-- One call of `_rate_limit_delay`: given the shared `last_request_time` and
the current clock `now`, sleep the remainder if less than `minInterval` has
elapsed, then stamp `last_request_time` with the post-sleep clock.  Returns
the time at which the call returns (= the new `last_request_time`), which is
the instant the guarded invocation starts. -/
def rateLimitStep (minInterval lastReq now : ℚ) : ℚ :=
  if now - lastReq < minInterval then now + (minInterval - (now - lastReq)) else now

/-- Invocation start times produced by a sequence of calls to
`_rate_limit_delay`, one per arrival time, threading the single shared
`last_request_time` through all of them. -/
def invocationTimes (minInterval : ℚ) : ℚ → List ℚ → List ℚ
  | _, [] => []
  | lastReq, now :: rest =>
    let t := rateLimitStep minInterval lastReq now
    t :: invocationTimes minInterval t rest

/- ===================================================================
   Task Scheduler, daily wall-clock task
   (scheduler.py, Scheduler._run_daily_task, lines 118-141)

   UTC time is modeled as integer seconds since an epoch; a UTC day is
   86400 seconds.  `utc_now.replace(hour=h, minute=m, second=0,
   microsecond=0)` is the start of the current UTC day plus
   `h * 3600 + m * 60` seconds.
   =================================================================== -/

/-- Next firing instant computed by `_run_daily_task`: today's `hour:minute`
(UTC), pushed to tomorrow if that instant is not strictly in the future. -/
def nextDailyTarget (hour minute now : ℤ) : ℤ :=
  let dayStart := now - now % 86400
  let target := dayStart + hour * 3600 + minute * 60
  if target ≤ now then target + 86400 else target

/-- Firing instants of the daily-task loop.  Each list entry is one run of
the job: its duration in seconds and whether it raised an exception.  The
loop sleeps until the computed target, runs the job (callback exceptions are
caught and logged, so the loop continues either way), and only then
recomputes the next target from the then-current clock. -/
def dailyFirings (hour minute : ℤ) : ℤ → List (ℤ × Bool) → List ℤ
  | _, [] => []
  | now, run :: rest =>
    let t := nextDailyTarget hour minute now
    t :: dailyFirings hour minute (t + run.1) rest

/- ===================================================================
   Authenticated Session Manager
   (auth_manager.py, AuthManager.get_token, lines 32-163)
   =================================================================== -/

/-- Python str.strip() whitespace set. -/
def pyWhitespace (c : Char) : Bool :=
  c = ' ' || c = '\t' || c = '\n' || c = '\r' || c = '\x0b' || c = '\x0c'

/-- Python str.strip(): drop leading and trailing whitespace. -/
def pyStrip (s : String) : String :=
  String.mk (((s.data.dropWhile pyWhitespace).reverse.dropWhile pyWhitespace).reverse)

/-- Shape of one login response as `get_token` inspects it:
an error envelope (the client returned a dict containing an error key),
a response envelope without a usable token field, or a response envelope
carrying a token string (empty string models a falsy token value). -/
inductive LoginResp where
  | err (msg : String)
  | respNoToken
  | respToken (t : String)
deriving DecidableEq

/-- Success test used by the window-search loop of `get_token`
(lines 123-125 and 136-138): no error key, the nested
`response.data.token` present and truthy. -/
def isSuccResp : LoginResp → Bool
  | .respToken t => t != ""
  | _ => false

/-- The fixed ordered offset list of `get_token` (line 74): 30-second TOTP
windows around the current time. -/
def totpOffsets : List ℤ := [-5, -4, -3, -2, -1, 0, 1, 2]

/-- The retry loop over the remaining time windows (lines 128-139): skip any
window whose code equals the already-tried current code `c0`, otherwise
attempt a login with that window's code, stopping at the first success; the
last attempted response is kept when every window fails.  `totpCode w` is the
TOTP code of the window at offset `w` (`totp.at(current_time + w * 30)`),
and `server c` the login response to code `c`. -/
def tryWindows (totpCode : ℤ → Nat) (server : Nat → LoginResp) (c0 : Nat) :
    List ℤ → LoginResp → LoginResp
  | [], r => r
  | w :: ws, r =>
    if totpCode w == c0 then tryWindows totpCode server c0 ws r
    else
      let r2 := server (totpCode w)
      if isSuccResp r2 then r2 else tryWindows totpCode server c0 ws r2

/-- The login part of `get_token` (lines 64-163, cache already missed):
try the current-window code first, then the offset windows; finally parse
the winning response, requiring a truthy token that is not all whitespace
(`if token and token.strip()`), and raise otherwise. -/
def loginResult (totpCode : ℤ → Nat) (server : Nat → LoginResp) : LoginResp :=
  if isSuccResp (server (totpCode 0)) then server (totpCode 0)
  else tryWindows totpCode server (totpCode 0) totpOffsets (server (totpCode 0))

/-- Epilogue of `get_token` (lines 141-163): parse the winning response. -/
def loginSearch (totpCode : ℤ → Nat) (server : Nat → LoginResp) :
    Except String String :=
  match loginResult totpCode server with
  | .err m => .error ("get token failed: " ++ m)
  | .respNoToken => .error "response shape has no token"
  | .respToken t =>
    if t != "" && pyStrip t != "" then .ok t else .error "login failed: invalid token"

/-- State owned by the session manager: the process-wide in-memory token
cache (`AuthManager._token_cache["main_login_token"]`, which stores only the
token string) and the durable token record written by
`config_loader.save_token_to_file(token, expires_in)`. -/
structure TokenState where
  cache : Option String
  file : Option (String × ℤ)
deriving DecidableEq

/-- Cache-and-login skeleton of `AuthManager.get_token` (lines 43-46 and
141-163).  The network part of the login (the TOTP window search of
`loginSearch`) is abstracted into the final response `resp` it would produce;
`respExpiresIn` is the optional `expiresIn` field of that response and `now`
the current clock (seconds), used only for the default 24-hour file expiry.
Returns the result, the new state, and how many logins were attempted. -/
def getTokenRun (st : TokenState) (resp : LoginResp) (respExpiresIn : Option ℤ)
    (now : ℤ) : Except String String × TokenState × Nat :=
  match st.cache with
  | some t => (.ok t, st, 0)
  | none =>
    match resp with
    | .respToken t =>
      if t != "" && pyStrip t != "" then
        let exp := respExpiresIn.getD (now + 24 * 3600)
        (.ok t, ⟨some t, some (t, exp)⟩, 1)
      else (.error "login failed: invalid token", st, 1)
    | .respNoToken => (.error "response shape has no token", st, 1)
    | .err m => (.error ("get token failed: " ++ m), st, 1)

/- ===================================================================
   Spreadsheet Sync Engine, value-level semantics
   (google_sheets_writer.py, write_daily_data lines 196-309,
    write_hourly_data lines 311-424, _delete_rows_by_date lines 426-522,
    _delete_old_hourly_data lines 524-636)

   A sheet is modeled by its list of value rows (columns A..J) as returned
   by a values.get over A:J; row 1 of the sheet is list position 0.
   `insertDimension` at startIndex 1, endIndex 1+n followed by a values
   update of A2:J(n+1) inserts the new rows at position 1.  A
   `deleteDimension` request with range [s, e) removes positions s..e-1;
   several requests inside one batchUpdate are applied sequentially, each
   against the result of the previous one (deleting past the current end
   only removes blank grid rows, leaving the values unchanged).
   =================================================================== -/

/-- One report entry of `data_list`, with the fields `write_daily_data` and
`write_hourly_data` extract (all modeled as strings, the cell values they
become). -/
structure ReportEntry where
  create_time : String
  channel : String
  register : String
  new_charge_user : String
  new_charge : String
  charge_total : String
  withdraw_total : String
  charge_withdraw_diff : String
deriving DecidableEq

/-- Row built for insertion (lines 242-253 / 357-368): timestamp, group,
data date, channel, then the six metric columns. -/
def mkRow (timestamp group : String) (e : ReportEntry) : List String :=
  [timestamp, group, e.create_time, e.channel, e.register, e.new_charge_user,
   e.new_charge, e.charge_total, e.withdraw_total, e.charge_withdraw_diff]

/-- Daily-delete match (lines 456-461): a row with at least 3 columns whose
third column equals the data date and second column equals the group. -/
def rowMatchesDaily (date group : String) (r : List String) : Bool :=
  decide (3 ≤ r.length) && (r.getD 2 "" == date) && (r.getD 1 "" == group)

/-- 1-based sheet row numbers of the rows matching `p`, in ascending order
(the `rows_to_delete.append(i + 1)` loop, starting the enumeration at `i`). -/
def matchingRowNumbersFrom (p : List String → Bool) : Nat → List (List String) → List Nat
  | _, [] => []
  | i, r :: rest =>
    if p r then (i + 1) :: matchingRowNumbersFrom p (i + 1) rest
    else matchingRowNumbersFrom p (i + 1) rest

/-- Range grouping loop (lines 472-506): collapse an ascending list of row
numbers into maximal runs `(start_row, end_row)` of consecutive numbers. -/
def groupRangesGo (startRow endRow : Nat) : List Nat → List (Nat × Nat)
  | [] => [(startRow, endRow)]
  | x :: xs =>
    if x = endRow + 1 then groupRangesGo startRow x xs
    else (startRow, endRow) :: groupRangesGo x x xs

/-- Group sorted row numbers into contiguous `(start_row, end_row)` ranges. -/
def groupRanges : List Nat → List (Nat × Nat)
  | [] => []
  | r :: rest => groupRangesGo r r rest

/-- Effect of one `deleteDimension` request with `startIndex = start_row - 1`
and `endIndex = end_row` on the current values: positions
`start_row - 1 .. end_row - 1` disappear. -/
def applyDeleteDimension (sheet : List (List String)) (range : Nat × Nat) :
    List (List String) :=
  sheet.take (range.1 - 1) ++ sheet.drop range.2

/-- Common body of `_delete_rows_by_date` and `_delete_old_hourly_data`
(identical except for the match predicate): read the values, collect matching
1-based row numbers, group them into ranges, and issue one batchUpdate whose
deleteDimension requests (built from the pre-delete snapshot, in ascending
order) are applied sequentially. -/
def deleteMatchingRows (sheet : List (List String)) (p : List String → Bool) :
    List (List String) :=
  let idxs := matchingRowNumbersFrom p 0 sheet
  if idxs.isEmpty then sheet
  else (groupRanges idxs).foldl applyDeleteDimension sheet

/-- Insert the fresh rows directly below the header row (insertDimension at
startIndex 1 plus the A2:J values update, lines 263-299). -/
def insertRowsBelowHeader (sheet newRows : List (List String)) : List (List String) :=
  sheet.take 1 ++ newRows ++ sheet.drop 1

/-- Value-level semantics of `write_daily_data` when every remote call
succeeds: delete all rows matching (first entry's date, group), then insert
the batch below the header.  An empty batch leaves the sheet untouched (the
function returns False before issuing any call). -/
def writeDailyData (sheet : List (List String)) (timestamp : String)
    (data : List ReportEntry) (group : String) : List (List String) :=
  match data with
  | [] => sheet
  | e :: _ =>
    insertRowsBelowHeader
      (deleteMatchingRows sheet (rowMatchesDaily e.create_time group))
      (data.map (mkRow timestamp group))

/-- Calendar date, as produced by `datetime.strptime(s, "%Y-%m-%d").date()`. -/
structure CalDate where
  year : Nat
  month : Nat
  day : Nat
deriving DecidableEq

def isLeapYear (y : Nat) : Bool :=
  (y % 4 == 0 && y % 100 != 0) || (y % 400 == 0)

def daysInMonth (y m : Nat) : Nat :=
  if m = 2 then (if isLeapYear y then 29 else 28)
  else if m = 4 ∨ m = 6 ∨ m = 9 ∨ m = 11 then 30
  else 31

/-- Split a character list at dashes. -/
def splitDashGo (acc : List Char) : List Char → List (List Char)
  | [] => [acc.reverse]
  | c :: rest =>
    if c = '-' then acc.reverse :: splitDashGo [] rest
    else splitDashGo (c :: acc) rest

/-- Parse a digit run. -/
def digitsToNatGo (acc : Nat) : List Char → Option Nat
  | [] => some acc
  | c :: rest =>
    if c.isDigit then digitsToNatGo (acc * 10 + (c.toNat - 48)) rest else none

def digitsToNat? : List Char → Option Nat
  | [] => none
  | cs => digitsToNatGo 0 cs

/-- Python `datetime.strptime(s, "%Y-%m-%d").date()`: exactly three
dash-separated components, a 4-digit year, a 1-2 digit month in 1..12, and a
1-2 digit day within the month (calendar-validated). -/
def parseDate (s : String) : Option CalDate :=
  match splitDashGo [] s.data with
  | [ys, ms, ds] =>
    match digitsToNat? ys, digitsToNat? ms, digitsToNat? ds with
    | some y, some m, some d =>
      if ys.length == 4 && (ms.length == 1 || ms.length == 2) &&
         (ds.length == 1 || ds.length == 2) &&
         decide (1 ≤ m) && decide (m ≤ 12) &&
         decide (1 ≤ d) && decide (d ≤ daysInMonth y m)
      then some ⟨y, m, d⟩ else none
    | _, _, _ => none
  | _ => none

/-- Strict calendar order.  The Python code computes
`(current_date - row_date).days > 0`; for calendar dates this holds exactly
when `row_date` precedes `current_date` in (year, month, day) order. -/
def dateLt (a b : CalDate) : Bool :=
  decide (a.year < b.year) ||
    (a.year == b.year &&
      (decide (a.month < b.month) ||
        (a.month == b.month && decide (a.day < b.day))))

/-- Hourly-delete match (lines 557-575): a row with at least 3 columns, of
the given group, with a non-empty date cell that parses as `%Y-%m-%d` and is
strictly before today (`date_diff > 0`); unparseable dates are skipped. -/
def rowMatchesHourly (today : CalDate) (group : String) (r : List String) : Bool :=
  decide (3 ≤ r.length) && (r.getD 1 "" == group) && (r.getD 2 "" != "") &&
    (match parseDate (r.getD 2 "") with
     | some dte => dateLt dte today
     | none => false)

/-- Value-level semantics of `write_hourly_data` when every remote call
succeeds: delete the group's rows dated strictly before today (today taken
from the Asia/Kolkata clock, threaded here as a parameter), then insert the
batch below the header. -/
def writeHourlyData (sheet : List (List String)) (today : CalDate)
    (timestamp : String) (data : List ReportEntry) (group : String) :
    List (List String) :=
  match data with
  | [] => sheet
  | _ :: _ =>
    insertRowsBelowHeader
      (deleteMatchingRows sheet (rowMatchesHourly today group))
      (data.map (mkRow timestamp group))

/-- Concrete header row used in counterexamples (its content is irrelevant;
it matches no group/date predicate below). -/
def hdrEx : List String :=
  ["write_time", "grp_hdr", "date_hdr", "chan", "reg", "npu", "npa", "ct", "wt", "diff"]

/-- Concrete matching data row (group G1, date 2025-05-10). -/
def rowMatchEx : List String :=
  ["t0", "G1", "2025-05-10", "ch", "1", "2", "3", "4", "5", "6"]

/-- Concrete row of the same group with a different (earlier) date. -/
def rowOtherDateEx : List String :=
  ["t0", "G1", "2025-05-09", "ch", "1", "2", "3", "4", "5", "6"]

/-- Concrete row of the same group dated one day in the future. -/
def rowFutureEx : List String :=
  ["t0", "G1", "2025-05-11", "ch", "1", "2", "3", "4", "5", "6"]

/-- Concrete report entry dated 2025-05-10. -/
def entryEx : ReportEntry :=
  ⟨"2025-05-10", "ch", "1", "2", "3", "4", "5", "6"⟩

/- ===================================================================
   Spreadsheet Sync Engine, effectful interface
   (google_sheets_writer.py, write_daily_data / write_hourly_data and
    their helpers, with the remote tabular service as an oracle)
   =================================================================== -/

/-- Outcomes of the remote calls a single write issues, as the oracle for one
run: the values read of the delete phase, the batched delete, the
spreadsheet-get used by `_get_sheet_id`, the insertDimension batch, and the
values update.  `.error ()` models the call raising after the queue/retry
machinery gives up. -/
structure SheetsOracle where
  readRows : Except Unit (List (List String))
  batchDelete : Except Unit Unit
  getSpreadsheet : Except Unit (Option Nat)
  insertDim : Except Unit Unit
  updateValues : Except Unit Unit
deriving DecidableEq

/-- One call of `_get_sheet_id` (lines 638-675): serve from the
`_sheet_id_cache` without any remote call when cached; otherwise issue one
spreadsheet-get; an exception is caught inside and becomes `none` (uncached),
a missing sheet title is `none` (uncached), a found id is returned and
cached.  Result, number of queued remote operations, new cache. -/
def getSheetIdRun (o : SheetsOracle) (cache : Option Nat) :
    Option Nat × Nat × Option Nat :=
  match cache with
  | some id => (some id, 0, some id)
  | none =>
    match o.getSpreadsheet with
    | .error _ => (none, 1, none)
    | .ok r => (r, 1, r)

/-- The `_get_sheet_id` calls made while building the per-range delete
requests (one call per range, threading the cache). -/
def sheetIdCallsCount (o : SheetsOracle) : Nat → Option Nat → Nat × Option Nat
  | 0, cache => (0, cache)
  | k + 1, cache =>
    let r := getSheetIdRun o cache
    let rest := sheetIdCallsCount o k r.2.2
    (r.2.1 + rest.1, rest.2)

/-- Control flow of `_delete_rows_by_date` / `_delete_old_hourly_data` with
explicit call outcomes: read the values (an exception is caught INSIDE the
helper, which returns False — swallowed by the caller); empty sheet or no
matching rows succeed with just the read; otherwise build the grouped ranges
(one `_get_sheet_id` per range) and issue the batched delete, catching its
exception likewise.  Returns (helper result, queued operations, new cache). -/
def deleteMatchingRun (o : SheetsOracle) (p : List String → Bool)
    (cache : Option Nat) : Bool × Nat × Option Nat :=
  match o.readRows with
  | .error _ => (false, 1, cache)
  | .ok values =>
    if values.isEmpty then (true, 1, cache)
    else
      let idxs := matchingRowNumbersFrom p 0 values
      if idxs.isEmpty then (true, 1, cache)
      else
        let ids := sheetIdCallsCount o (groupRanges idxs).length cache
        match o.batchDelete with
        | .error _ => (false, 1 + ids.1 + 1, ids.2)
        | .ok _ => (true, 1 + ids.1 + 1, ids.2)

/-- Control flow of `write_daily_data` (lines 196-309): False with no remote
call when the service is uninitialized or the batch is empty; then the delete
phase (whose False result is ignored); then `_get_sheet_id`, returning False
when it yields none; then the insertDimension batch and the values update,
any exception of which is caught by the outer handler and becomes False.
Returns (result, queued remote operations). -/
def writeDailyRun (serviceOk : Bool) (data : List ReportEntry) (group : String)
    (o : SheetsOracle) (cache : Option Nat) : Bool × Nat :=
  match serviceOk, data with
  | false, _ => (false, 0)
  | true, [] => (false, 0)
  | true, e :: _ =>
    let del := deleteMatchingRun o (rowMatchesDaily e.create_time group) cache
    let sid := getSheetIdRun o del.2.2
    match sid.1 with
    | none => (false, del.2.1 + sid.2.1)
    | some _ =>
      match o.insertDim with
      | .error _ => (false, del.2.1 + sid.2.1 + 1)
      | .ok _ =>
        match o.updateValues with
        | .error _ => (false, del.2.1 + sid.2.1 + 2)
        | .ok _ => (true, del.2.1 + sid.2.1 + 2)

/-- Control flow of `write_hourly_data` (lines 311-424), identical to the
daily one except that the delete phase matches the group's strictly-older
rows. -/
def writeHourlyRun (serviceOk : Bool) (today : CalDate) (data : List ReportEntry)
    (group : String) (o : SheetsOracle) (cache : Option Nat) : Bool × Nat :=
  match serviceOk, data with
  | false, _ => (false, 0)
  | true, [] => (false, 0)
  | true, _ :: _ =>
    let del := deleteMatchingRun o (rowMatchesHourly today group) cache
    let sid := getSheetIdRun o del.2.2
    match sid.1 with
    | none => (false, del.2.1 + sid.2.1)
    | some _ =>
      match o.insertDim with
      | .error _ => (false, del.2.1 + sid.2.1 + 1)
      | .ok _ =>
        match o.updateValues with
        | .error _ => (false, del.2.1 + sid.2.1 + 2)
        | .ok _ => (true, del.2.1 + sid.2.1 + 2)

/-- Oracle for the C10 counterexample: the delete-phase values read raises,
every other remote call succeeds. -/
def oracleReadFails : SheetsOracle :=
  ⟨.error (), .ok (), .ok (some 5), .ok (), .ok ()⟩

/-- Oracle for the C10 witness in which the insertDimension batch raises. -/
def oracleInsertFails : SheetsOracle :=
  ⟨.ok [], .ok (), .ok (some 5), .error (), .ok ()⟩

/- ===================================================================
   Login-request signature
   (param_generator.py, ParamGenerator.generate_signature, lines 64-90)

   hashlib.md5 is embedded below as a pure function on byte lists
   (RFC 1321), with the digest rendered as uppercase hexadecimal as
   `hexdigest().upper()` does.
   =================================================================== -/

def m32 (x : Nat) : Nat := x % 4294967296

def rotl32 (x s : Nat) : Nat := ((x <<< s) % 4294967296) ||| (x >>> (32 - s))

/-- The 64 MD5 sine-table constants. -/
def md5K : List Nat :=
  [0xd76aa478, 0xe8c7b756, 0x242070db, 0xc1bdceee,
   0xf57c0faf, 0x4787c62a, 0xa8304613, 0xfd469501,
   0x698098d8, 0x8b44f7af, 0xffff5bb1, 0x895cd7be,
   0x6b901122, 0xfd987193, 0xa679438e, 0x49b40821,
   0xf61e2562, 0xc040b340, 0x265e5a51, 0xe9b6c7aa,
   0xd62f105d, 0x02441453, 0xd8a1e681, 0xe7d3fbc8,
   0x21e1cde6, 0xc33707d6, 0xf4d50d87, 0x455a14ed,
   0xa9e3e905, 0xfcefa3f8, 0x676f02d9, 0x8d2a4c8a,
   0xfffa3942, 0x8771f681, 0x6d9d6122, 0xfde5380c,
   0xa4beea44, 0x4bdecfa9, 0xf6bb4b60, 0xbebfbc70,
   0x289b7ec6, 0xeaa127fa, 0xd4ef3085, 0x04881d05,
   0xd9d4d039, 0xe6db99e5, 0x1fa27cf8, 0xc4ac5665,
   0xf4292244, 0x432aff97, 0xab9423a7, 0xfc93a039,
   0x655b59c3, 0x8f0ccc92, 0xffeff47d, 0x85845dd1,
   0x6fa87e4f, 0xfe2ce6e0, 0xa3014314, 0x4e0811a1,
   0xf7537e82, 0xbd3af235, 0x2ad7d2bb, 0xeb86d391]

/-- The 64 per-round left-rotation amounts. -/
def md5S : List Nat :=
  [7, 12, 17, 22, 7, 12, 17, 22, 7, 12, 17, 22, 7, 12, 17, 22,
   5, 9, 14, 20, 5, 9, 14, 20, 5, 9, 14, 20, 5, 9, 14, 20,
   4, 11, 16, 23, 4, 11, 16, 23, 4, 11, 16, 23, 4, 11, 16, 23,
   6, 10, 15, 21, 6, 10, 15, 21, 6, 10, 15, 21, 6, 10, 15, 21]

def md5F (i b c d : Nat) : Nat :=
  if i < 16 then (b &&& c) ||| ((b ^^^ 4294967295) &&& d)
  else if i < 32 then (d &&& b) ||| ((d ^^^ 4294967295) &&& c)
  else if i < 48 then b ^^^ c ^^^ d
  else c ^^^ (b ||| (d ^^^ 4294967295))

def md5G (i : Nat) : Nat :=
  if i < 16 then i
  else if i < 32 then (5 * i + 1) % 16
  else if i < 48 then (3 * i + 5) % 16
  else (7 * i) % 16

/-- Little-endian 32-bit word `j` of a 64-byte block. -/
def leWord (block : List Nat) (j : Nat) : Nat :=
  block.getD (4 * j) 0 + 256 * (block.getD (4 * j + 1) 0 +
    256 * (block.getD (4 * j + 2) 0 + 256 * block.getD (4 * j + 3) 0))

def md5Step (block : List Nat) (st : Nat × Nat × Nat × Nat) (i : Nat) :
    Nat × Nat × Nat × Nat :=
  let a := st.1
  let b := st.2.1
  let c := st.2.2.1
  let d := st.2.2.2
  let f := m32 (md5F i b c d + a + md5K.getD i 0 + leWord block (md5G i))
  (d, m32 (b + rotl32 f (md5S.getD i 0)), b, c)

def md5ProcessBlock (st : Nat × Nat × Nat × Nat) (block : List Nat) :
    Nat × Nat × Nat × Nat :=
  let r := (List.range 64).foldl (md5Step block) st
  (m32 (st.1 + r.1), m32 (st.2.1 + r.2.1), m32 (st.2.2.1 + r.2.2.1), m32 (st.2.2.2 + r.2.2.2))

/-- `k` bytes of `n`, little-endian. -/
def leBytes (n : Nat) : Nat → List Nat
  | 0 => []
  | k + 1 => (n % 256) :: leBytes (n / 256) k

/-- MD5 padding: 0x80, zeros to 56 mod 64, then the 64-bit little-endian bit
length. -/
def md5Pad (msg : List Nat) : List Nat :=
  msg ++ (128 :: List.replicate ((119 - msg.length % 64) % 64) 0) ++
    leBytes (8 * msg.length) 8

def chunks64 (l : List Nat) : List (List Nat) :=
  (List.range (l.length / 64)).map (fun i => (l.drop (64 * i)).take 64)

/-- MD5 digest (16 bytes) of a byte list. -/
def md5Digest (msg : List Nat) : List Nat :=
  let st := (chunks64 (md5Pad msg)).foldl md5ProcessBlock
    (0x67452301, 0xefcdab89, 0x98badcfe, 0x10325476)
  leBytes st.1 4 ++ leBytes st.2.1 4 ++ leBytes st.2.2.1 4 ++ leBytes st.2.2.2 4

def hexDigitUpper (n : Nat) : Char :=
  if n < 10 then Char.ofNat (48 + n) else Char.ofNat (55 + n)

def byteHexUpper (b : Nat) : List Char :=
  [hexDigitUpper (b / 16), hexDigitUpper (b % 16)]

/-- `hashlib.md5(bytes).hexdigest().upper()`. -/
def md5HexUpper (msg : List Nat) : String :=
  String.mk (((md5Digest msg).map byteHexUpper).flatten)

/-- UTF-8 encoding of one character (`str.encode("utf-8")`). -/
def utf8Bytes (c : Char) : List Nat :=
  let n := c.toNat
  if n < 128 then [n]
  else if n < 2048 then [192 + n / 64, 128 + n % 64]
  else if n < 65536 then [224 + n / 4096, 128 + (n / 64) % 64, 128 + n % 64]
  else [240 + n / 262144, 128 + (n / 4096) % 64, 128 + (n / 64) % 64, 128 + n % 64]

def strUtf8 (s : String) : List Nat :=
  (s.data.map utf8Bytes).flatten

/-- A scalar JSON value of the login payload (string or integer field). -/
inductive ScalarVal where
  | s (v : String)
  | i (n : Int)
deriving DecidableEq

/-- A field value of the request dictionary handed to `generate_signature`:
a scalar, a list of scalars, or a nested dictionary of scalars (one nesting
level, the shape of the JSON payloads this client builds). -/
inductive FieldVal where
  | scalar (v : ScalarVal)
  | list (elems : List ScalarVal)
  | dict (fields : List (String × ScalarVal))
deriving DecidableEq

def hexDigitLower (n : Nat) : Char :=
  if n < 10 then Char.ofNat (48 + n) else Char.ofNat (87 + n)

/-- One character under `json.dumps` string escaping (`ensure_ascii=False`):
quote, backslash and control characters are escaped, everything else is
emitted verbatim. -/
def jsonEscapeChar (c : Char) : List Char :=
  if c = '"' then ['\\', '"']
  else if c = '\\' then ['\\', '\\']
  else if c = '\n' then ['\\', 'n']
  else if c = '\r' then ['\\', 'r']
  else if c = '\t' then ['\\', 't']
  else if c.toNat = 8 then ['\\', 'b']
  else if c.toNat = 12 then ['\\', 'f']
  else if c.toNat < 32 then
    ['\\', 'u', '0', '0', hexDigitLower (c.toNat / 16), hexDigitLower (c.toNat % 16)]
  else [c]

/-- A JSON string literal as `json.dumps` renders it. -/
def jsonQuote (s : String) : String :=
  String.mk ('"' :: (s.data.map jsonEscapeChar).flatten ++ ['"'])

def commaJoin : List String → String
  | [] => ""
  | [x] => x
  | x :: xs => x ++ "," ++ commaJoin xs

def scalarDump : ScalarVal → String
  | .s v => jsonQuote v
  | .i n => toString n

/-- `json.dumps(value, separators=(",", ":"), ensure_ascii=False)` for a
field value, preserving the order of dictionary fields. -/
def fieldDump : FieldVal → String
  | .scalar v => scalarDump v
  | .list es => "[" ++ commaJoin (es.map scalarDump) ++ "]"
  | .dict fs =>
    "\x7b" ++ commaJoin (fs.map (fun kv => jsonQuote kv.1 ++ ":" ++ scalarDump kv.2)) ++ "\x7d"

/-- Python string comparison: lexicographic on code points. -/
def charListLt : List Char → List Char → Bool
  | [], [] => false
  | [], _ :: _ => true
  | _ :: _, [] => false
  | c1 :: t1, c2 :: t2 =>
    if c1.toNat < c2.toNat then true
    else if c2.toNat < c1.toNat then false
    else charListLt t1 t2

def strLtB (a b : String) : Bool := charListLt a.data b.data

/-- Insert a field into a key-sorted field list (Python `sorted` on dict
items orders by key; keys of a dict are unique). -/
def insertField {α : Type} (k : String) (v : α) :
    List (String × α) → List (String × α)
  | [] => [(k, v)]
  | (k2, v2) :: tl =>
    if strLtB k k2 then (k, v) :: (k2, v2) :: tl else (k2, v2) :: insertField k v tl

def sortFields {α : Type} : List (String × α) → List (String × α)
  | [] => []
  | (k, v) :: tl => insertField k v (sortFields tl)

/-- The fields excluded from signing (line 69). -/
def sigExcluded (k : String) : Bool :=
  k == "timestamp" || k == "signature" || k == "track"

/-- `sort_and_stringify` applied to a nested dictionary value: sort its items
by key, drop excluded keys (its scalar values are never lists), and dump the
result without whitespace. -/
def innerSigString (inner : List (String × ScalarVal)) : String :=
  "\x7b" ++ commaJoin ((sortFields inner).filterMap
    (fun kv =>
      if sigExcluded kv.1 then none
      else some (jsonQuote kv.1 ++ ":" ++ scalarDump kv.2))) ++ "\x7d"

/-- `sort_and_stringify` applied to the request dictionary (lines 71-79):
iterate the key-sorted items, dropping excluded keys and list values;
a nested dictionary value is recursively stringified and then embedded as a
JSON STRING by the outer `json.dumps`; scalars are dumped as themselves. -/
def codeSigString (fs : List (String × FieldVal)) : String :=
  "\x7b" ++ commaJoin ((sortFields fs).filterMap
    (fun kv =>
      if sigExcluded kv.1 then none
      else
        match kv.2 with
        | .list _ => none
        | .dict inner => some (jsonQuote kv.1 ++ ":" ++ jsonQuote (innerSigString inner))
        | .scalar v => some (jsonQuote kv.1 ++ ":" ++ scalarDump v))) ++ "\x7d"

/-- `ParamGenerator.generate_signature`: uppercase hexadecimal MD5 of the
UTF-8 bytes of the stringified request data. -/
def generateSignature (fs : List (String × FieldVal)) : String :=
  md5HexUpper (strUtf8 (codeSigString fs))

/-- Reference definition from the claim: the canonical JSON serialization
(keys sorted, no whitespace) of ALL request fields except timestamp,
signature and track — list values included, nested dictionaries serialized
as JSON objects. -/
def specCanonicalString (fs : List (String × FieldVal)) : String :=
  "\x7b" ++ commaJoin ((sortFields fs).filterMap
    (fun kv =>
      if sigExcluded kv.1 then none
      else some (jsonQuote kv.1 ++ ":" ++ fieldDump kv.2))) ++ "\x7d"

/-- Signature per the claim's reference definition. -/
def specSignature (fs : List (String × FieldVal)) : String :=
  md5HexUpper (strUtf8 (specCanonicalString fs))

/-- Concrete request data with one list-valued field. -/
def sigDataEx : List (String × FieldVal) :=
  [("a", .list [.s "x"]), ("userName", .scalar (.s "u"))]

def isListVal : FieldVal → Bool
  | .list _ => true
  | _ => false

/-- Rendering of a surviving field value under the amended reference
definition: scalars canonically; a nested dictionary as an embedded JSON
string of its own key-sorted, exclusion-filtered, whitespace-free dump. -/
def amendedValueDump : FieldVal → String
  | .scalar v => scalarDump v
  | .list es => fieldDump (.list es)
  | .dict inner =>
    jsonQuote ("\x7b" ++ commaJoin (((sortFields inner).filter
      (fun kv => !(sigExcluded kv.1))).map
        (fun kv => jsonQuote kv.1 ++ ":" ++ scalarDump kv.2)) ++ "\x7d")

/-- The amended reference string: key-sorted fields, keeping exactly those
that are neither excluded (timestamp/signature/track) nor list-valued, each
rendered without whitespace. -/
def amendedCanonicalString (fs : List (String × FieldVal)) : String :=
  "\x7b" ++ commaJoin (((sortFields fs).filter
    (fun kv => !(sigExcluded kv.1) && !(isListVal kv.2))).map
      (fun kv => jsonQuote kv.1 ++ ":" ++ amendedValueDump kv.2)) ++ "\x7d"

/-- Signature per the amended reference definition. -/
def amendedSignature (fs : List (String × FieldVal)) : String :=
  md5HexUpper (strUtf8 (amendedCanonicalString fs))

/- ===================================================================
   Serialized Operation Queue
   (google_sheets_writer.py, _start_queue_worker lines 117-150 and
    _queue_operation lines 152-174)

   The asyncio event loop runs one cooperative task at a time; code
   between awaits is atomic.  The transition system below has one step
   per such atomic region: `submit` is `_queue_operation` (check the
   running flag, create a worker task if it is unset, put the operation
   on the FIFO queue); `workerStartDead`/`workerStartLive` are the start
   of a created worker task (the guard at line 119 and the flag set at
   line 122 run with no await between them, so they are one step);
   `beginOp` is the worker dequeuing (line 128); `finishOp` is the
   operation's synchronous execution through the retry executor and the
   resolution of its future (lines 138-141) — the action itself is a
   synchronous call, so no other task can run inside it.  `f i` is the
   result (or exception) operation `i` produces. -/

/-- State of the queue machinery.  `workers` lists the worker tasks that
passed the guard, each holding the operation it is currently executing. -/
structure QueueState where
  flag : Bool
  pending : Nat
  workers : List (Option Nat)
  queue : List Nat
  nextIdx : Nat
  completions : List (Nat × Except Unit Nat)
deriving DecidableEq

def initialQueueState : QueueState := ⟨false, 0, [], [], 0, []⟩

/-- Operations currently being executed (dequeued, future not yet
resolved). -/
def inFlight (s : QueueState) : List Nat := s.workers.filterMap id

/-- One atomic step of the event loop, as described above. -/
inductive QueueStep (f : Nat → Except Unit Nat) : QueueState → QueueState → Prop where
  | submit (s : QueueState) :
      QueueStep f s ⟨s.flag, if s.flag then s.pending else s.pending + 1, s.workers,
        s.queue ++ [s.nextIdx], s.nextIdx + 1, s.completions⟩
  | workerStartDead (s : QueueState) (h : 0 < s.pending) (hf : s.flag = true) :
      QueueStep f s ⟨s.flag, s.pending - 1, s.workers, s.queue, s.nextIdx, s.completions⟩
  | workerStartLive (s : QueueState) (h : 0 < s.pending) (hf : s.flag = false) :
      QueueStep f s ⟨true, s.pending - 1, s.workers ++ [none], s.queue, s.nextIdx,
        s.completions⟩
  | beginOp (s : QueueState) (j i : Nat) (rest : List Nat)
      (hw : s.workers[j]? = some none) (hq : s.queue = i :: rest) :
      QueueStep f s ⟨s.flag, s.pending, s.workers.set j (some i), rest, s.nextIdx,
        s.completions⟩
  | finishOp (s : QueueState) (j i : Nat) (hw : s.workers[j]? = some (some i)) :
      QueueStep f s ⟨s.flag, s.pending, s.workers.set j none, s.queue, s.nextIdx,
        s.completions ++ [(i, f i)]⟩

/-- States reachable from the initial state. -/
inductive QueueReachable (f : Nat → Except Unit Nat) : QueueState → Prop where
  | init : QueueReachable f initialQueueState
  | step (s s2 : QueueState) (h : QueueReachable f s) (hs : QueueStep f s s2) :
      QueueReachable f s2

/-- Inductive invariant: no worker before the flag is set; at most one live
worker (the guard kills later starters); completed, executing and queued
operation indices together are exactly the submitted ones in order; every
resolved future carries its own operation's result. -/
def QueueInv (f : Nat → Except Unit Nat) (s : QueueState) : Prop :=
  (s.flag = false → s.workers = []) ∧
  s.workers.length ≤ 1 ∧
  s.completions.map Prod.fst ++ inFlight s ++ s.queue = List.range s.nextIdx ∧
  (∀ c ∈ s.completions, c.2 = f c.1)

theorem retryGo_calls_le (script : Nat → AttemptOutcome) (baseDelay : ℚ) :
    ∀ remaining attempt, (retryGo script baseDelay remaining attempt).calls ≤ remaining + 1 := by
  intro remaining
  induction remaining with
  | zero =>
    intro attempt
    rw [retryGo]
    rcases script attempt with v | s | _
    · simp
    · by_cases hs : s = 429 <;> simp [hs]
    · simp
  | succ r ih =>
    intro attempt
    rw [retryGo]
    rcases script attempt with v | s | _
    · simp
    · by_cases hs : s = 429 <;> simp [hs]
      exact ih (attempt + 1)
    · simpa using ih (attempt + 1)

theorem rangeMap_pow_succ (baseDelay : ℚ) (r attempt : Nat) :
    (List.range (r + 1)).map (fun i => baseDelay * 2 ^ (attempt + i)) =
      baseDelay * 2 ^ attempt ::
        (List.range r).map (fun i => baseDelay * 2 ^ (attempt + 1 + i)) := by
  rw [List.range_succ_eq_map, List.map_cons, List.map_map]
  refine congrArg₂ _ (by simp) (List.map_congr_left ?_)
  intro a _
  have hx : attempt + (a + 1) = attempt + 1 + a := by omega
  simp [Function.comp, Nat.succ_eq_add_one, hx]

theorem retryGo_all429 (script : Nat → AttemptOutcome) (baseDelay : ℚ)
    (h : ∀ i, script i = .httpErr 429) :
    ∀ remaining attempt, retryGo script baseDelay remaining attempt =
      ⟨.error (.http 429), remaining + 1,
        (List.range remaining).map (fun i => baseDelay * 2 ^ (attempt + i))⟩ := by
  intro remaining
  induction remaining with
  | zero =>
    intro attempt
    rw [retryGo, h attempt]
    simp
  | succ r ih =>
    intro attempt
    rw [retryGo, h attempt]
    simp only [if_pos rfl, ih (attempt + 1), rangeMap_pow_succ]
    simp

theorem retryGo_429_then_ok (script : Nat → AttemptOutcome) (baseDelay : ℚ) (v : Nat) :
    ∀ k remaining attempt, k ≤ remaining →
      (∀ i, i < k → script (attempt + i) = .httpErr 429) →
      script (attempt + k) = .ok v →
      retryGo script baseDelay remaining attempt =
        ⟨.ok v, k + 1, (List.range k).map (fun i => baseDelay * 2 ^ (attempt + i))⟩ := by
  intro k
  induction k with
  | zero =>
    intro remaining attempt _ _ hok
    simp only [Nat.add_zero] at hok
    rcases remaining with _ | r <;> rw [retryGo, hok] <;> simp
  | succ n ih =>
    intro remaining attempt hle h429 hok
    obtain ⟨r, rfl⟩ : ∃ r, remaining = r + 1 := ⟨remaining - 1, by omega⟩
    rw [retryGo]
    have h0 : script attempt = .httpErr 429 := by
      have := h429 0 (by omega)
      simpa using this
    rw [h0]
    simp only [if_pos rfl]
    have hrec := ih r (attempt + 1) (by omega)
      (fun i hi => by
        have := h429 (i + 1) (by omega)
        simpa [Nat.add_assoc, Nat.add_comm 1 i] using this)
      (by
        have : attempt + 1 + n = attempt + (n + 1) := by omega
        rw [this]; exact hok)
    simp only [hrec, rangeMap_pow_succ]
    simp

/-- Claim C4: retry policy of the Retry Executor.  (1) Every run invokes the
wrapped operation at most `max_retries + 1` times.  (2) A run whose every
attempt hits a rate-limit error (HTTP 429) retries `max_retries` times,
sleeping `base_delay * 2 ^ attempt` between attempt `attempt` and attempt
`attempt + 1`, and finally re-raises the 429 error after exactly
`max_retries + 1` invocations.  (3) A run whose first `k ≤ max_retries`
attempts hit 429 and whose attempt `k` succeeds returns that success after
`k + 1` invocations with exactly the backoff sleeps of attempts `0..k-1`.
(4) A non-retryable error (an HTTP error with status other than 429) on the
first attempt is re-raised immediately: one invocation, no backoff sleep. -/
theorem claim_C4_retry_policy :
    (∀ maxRetries baseDelay script,
      (executeWithRetry maxRetries baseDelay script).calls ≤ maxRetries + 1) ∧
    (∀ maxRetries baseDelay script, (∀ i, script i = AttemptOutcome.httpErr 429) →
      executeWithRetry maxRetries baseDelay script =
        ⟨.error (.http 429), maxRetries + 1,
          (List.range maxRetries).map (fun i => baseDelay * 2 ^ i)⟩) ∧
    (∀ maxRetries baseDelay script k v, k ≤ maxRetries →
      (∀ i, i < k → script i = AttemptOutcome.httpErr 429) →
      script k = AttemptOutcome.ok v →
      executeWithRetry maxRetries baseDelay script =
        ⟨.ok v, k + 1, (List.range k).map (fun i => baseDelay * 2 ^ i)⟩) ∧
    (∀ maxRetries baseDelay script s, s ≠ 429 →
      script 0 = AttemptOutcome.httpErr s →
      executeWithRetry maxRetries baseDelay script = ⟨.error (.http s), 1, []⟩) := by
  refine ⟨fun mr b s => retryGo_calls_le s b mr 0,
    fun mr b s h => by simpa using retryGo_all429 s b h mr 0,
    fun mr b s k v hk h429 hok => by
      simpa using retryGo_429_then_ok s b v k mr 0 hk (by simpa using h429) (by simpa using hok),
    fun mr b s st hst h0 => ?_⟩
  unfold executeWithRetry
  rcases mr with _ | r <;> rw [retryGo, h0] <;> simp [hst]

/-- Witness for C4 at concrete inputs: with `max_retries = 2`, `base_delay = 3`
an all-429 script is invoked 3 times with sleeps `[3, 6]` and re-raises, and a
script failing with HTTP 400 on the first attempt fails after one invocation. -/
theorem claim_C4_retry_policy_witness :
    executeWithRetry 2 3 (fun _ => AttemptOutcome.httpErr 429) =
      ⟨.error (.http 429), 3, [3, 6]⟩ ∧
    executeWithRetry 5 3 (fun _ => AttemptOutcome.httpErr 400) =
      ⟨.error (.http 400), 1, []⟩ := by
  constructor
  · have h := claim_C4_retry_policy.2.1 2 3 (fun _ => AttemptOutcome.httpErr 429)
      (fun _ => rfl)
    rw [h]
    norm_num [List.range_succ]
  · exact claim_C4_retry_policy.2.2.2 5 3 (fun _ => AttemptOutcome.httpErr 400) 400
      (by norm_num) rfl

theorem rateLimitStep_ge (minInterval lastReq now : ℚ) :
    lastReq + minInterval ≤ rateLimitStep minInterval lastReq now := by
  unfold rateLimitStep
  split <;> linarith

/-- Claim C5: the retry executor enforces a process-wide minimum spacing.
For every initial `last_request_time` and every sequence of arrival times of
calls to `_rate_limit_delay` (across all operations and retry attempts, all
sharing the one `last_request_time`), each produced invocation instant is at
least `min_interval` after the previous one (and at least `min_interval`
after the initial timestamp). -/
theorem claim_C5_min_spacing (minInterval lastReq : ℚ) (arrivals : List ℚ) :
    List.Chain (fun x y => x + minInterval ≤ y) lastReq
      (invocationTimes minInterval lastReq arrivals) := by
  induction arrivals generalizing lastReq with
  | nil => exact List.Chain.nil
  | cons now rest ih =>
    exact List.Chain.cons (rateLimitStep_ge minInterval lastReq now)
      (ih (rateLimitStep minInterval lastReq now))

theorem nextDailyTarget_emod (hour minute now : ℤ)
    (h1 : 0 ≤ hour * 3600 + minute * 60) (h2 : hour * 3600 + minute * 60 < 86400) :
    nextDailyTarget hour minute now % 86400 = hour * 3600 + minute * 60 := by
  simp only [nextDailyTarget]
  split <;> omega

theorem nextDailyTarget_gt (hour minute now : ℤ)
    (h1 : 0 ≤ hour * 3600 + minute * 60) :
    now < nextDailyTarget hour minute now := by
  simp only [nextDailyTarget]
  split <;> omega

theorem nextDailyTarget_le (hour minute now : ℤ)
    (h2 : hour * 3600 + minute * 60 < 86400) :
    nextDailyTarget hour minute now ≤ now + 86400 := by
  simp only [nextDailyTarget]
  split <;> omega

theorem nextDailyTarget_of_aligned (hour minute t d : ℤ)
    (ht : t % 86400 = hour * 3600 + minute * 60)
    (hd0 : 0 ≤ d) (hd1 : d < 86400) :
    nextDailyTarget hour minute (t + d) = t + 86400 := by
  simp only [nextDailyTarget]
  split <;> omega

theorem dailyFirings_head (hour minute now : ℤ) (run : ℤ × Bool) (rest : List (ℤ × Bool)) :
    (dailyFirings hour minute now (run :: rest)).head? =
      some (nextDailyTarget hour minute now) := by
  rw [dailyFirings]
  simp

/-- Claim C8: the daily scheduled task computes, in UTC, the next occurrence
of `hour:minute`, adding 24 hours when that instant is not strictly in the
future, sleeps until it, runs the job (exceptions are caught, the loop
continues), and recomputes only afterwards.  Consequently, for every sequence
of job runs (durations and raised-exception flags): every firing instant is
aligned to the `hour:minute` UTC wall-clock boundary; whenever every job
duration is shorter than one day, consecutive firings are spaced exactly 24
hours from the computed target (no drift accumulation from job completion
times); and the first firing is strictly in the future and at most 24 hours
away. -/
theorem claim_C8_daily_schedule (hour minute now : ℤ) (runs : List (ℤ × Bool))
    (hh1 : 0 ≤ hour) (hh2 : hour ≤ 23) (hm1 : 0 ≤ minute) (hm2 : minute ≤ 59)
    (hd : ∀ r ∈ runs, 0 ≤ r.1 ∧ r.1 < 86400) :
    (∀ t ∈ dailyFirings hour minute now runs,
        t % 86400 = hour * 3600 + minute * 60) ∧
    List.Chain' (fun x y => y = x + 86400) (dailyFirings hour minute now runs) ∧
    (∀ t0, (dailyFirings hour minute now runs).head? = some t0 →
        now < t0 ∧ t0 ≤ now + 86400) := by
  have hhm1 : 0 ≤ hour * 3600 + minute * 60 := by omega
  have hhm2 : hour * 3600 + minute * 60 < 86400 := by omega
  induction runs generalizing now with
  | nil => simp [dailyFirings]
  | cons run rest ih =>
    obtain ⟨hrun, hrest⟩ : (0 ≤ run.1 ∧ run.1 < 86400) ∧ ∀ r ∈ rest, 0 ≤ r.1 ∧ r.1 < 86400 :=
      ⟨hd run (by simp), fun r hr => hd r (by simp [hr])⟩
    obtain ⟨ihA, ihB, ihC⟩ := ih (nextDailyTarget hour minute now + run.1) hrest
    rw [dailyFirings]
    refine ⟨?_, ?_, ?_⟩
    · intro t ht
      rcases List.mem_cons.mp ht with h | h
      · rw [h]; exact nextDailyTarget_emod hour minute now hhm1 hhm2
      · exact ihA t h
    · rw [List.chain'_cons']
      refine ⟨?_, ihB⟩
      intro y hy
      rcases rest with _ | ⟨run2, rest2⟩
      · simp [dailyFirings] at hy
      · rw [dailyFirings_head] at hy
        have := nextDailyTarget_of_aligned hour minute (nextDailyTarget hour minute now)
          run.1 (nextDailyTarget_emod hour minute now hhm1 hhm2) hrun.1 hrun.2
        simp only [Option.mem_def, Option.some.injEq] at hy
        rw [← hy]
        exact this
    · intro t0 ht0
      simp only [List.head?_cons, Option.some.injEq] at ht0
      rw [← ht0]
      exact ⟨nextDailyTarget_gt hour minute now hhm1,
        nextDailyTarget_le hour minute now hhm2⟩

/-- Witness for C8: with `hour = 0, minute = 0` and a start clock of 23:59:00
UTC on day 0 (86340 seconds), the first firing is 60 seconds later at
midnight (86400), within 60 seconds as the spec example requires, and runs of
10 and 100 seconds (the second one raising) fire at exactly 24-hour
boundaries 86400, 172800, 259200. -/
theorem claim_C8_daily_schedule_witness :
    dailyFirings 0 0 86340 [(10, false), (100, true)] = [86400, 172800] ∧
    (∀ t ∈ dailyFirings 0 0 86340 [(10, false), (100, true)], t % 86400 = 0) ∧
    (∀ t0, (dailyFirings 0 0 86340 [(10, false), (100, true)]).head? = some t0 →
        86340 < t0 ∧ t0 ≤ 86340 + 86400) := by
  have h := claim_C8_daily_schedule 0 0 86340 [(10, false), (100, true)]
    (by norm_num) (by norm_num) (by norm_num) (by norm_num)
    (by decide)
  exact ⟨by decide, by simpa using h.1, h.2.2⟩

theorem tryWindows_mem (totpCode : ℤ → Nat) (server : Nat → LoginResp) (c0 : Nat) :
    ∀ ws r, tryWindows totpCode server c0 ws r = r ∨
      ∃ w ∈ ws, tryWindows totpCode server c0 ws r = server (totpCode w) := by
  intro ws
  induction ws with
  | nil => intro r; left; rfl
  | cons w ws ih =>
    intro r
    rw [tryWindows]
    by_cases hskip : totpCode w == c0
    · rw [if_pos hskip]
      rcases ih r with h | ⟨w2, hw2, h⟩
      · left; exact h
      · right; exact ⟨w2, by simp [hw2], h⟩
    · rw [if_neg hskip]
      by_cases hsucc : isSuccResp (server (totpCode w))
      · simp only [hsucc, if_true]
        right; exact ⟨w, by simp, rfl⟩
      · simp only [hsucc, if_false]
        rcases ih (server (totpCode w)) with h | ⟨w2, hw2, h⟩
        · right; exact ⟨w, by simp, h⟩
        · right; exact ⟨w2, by simp [hw2], h⟩

theorem tryWindows_succ_iff (totpCode : ℤ → Nat) (server : Nat → LoginResp) (c0 : Nat) :
    ∀ ws r, isSuccResp r = false →
      (isSuccResp (tryWindows totpCode server c0 ws r) = true ↔
        ∃ w ∈ ws, totpCode w ≠ c0 ∧ isSuccResp (server (totpCode w)) = true) := by
  intro ws
  induction ws with
  | nil =>
    intro r hr
    simp [tryWindows, hr]
  | cons w ws ih =>
    intro r hr
    rw [tryWindows]
    by_cases hskip : totpCode w == c0
    · rw [if_pos hskip]
      rw [ih r hr]
      constructor
      · rintro ⟨w2, hw2, h⟩; exact ⟨w2, by simp [hw2], h⟩
      · rintro ⟨w2, hw2, hne, hs⟩
        rcases List.mem_cons.mp hw2 with rfl | hmem
        · exact absurd (by simpa using hskip) hne
        · exact ⟨w2, hmem, hne, hs⟩
    · rw [if_neg hskip]
      by_cases hsucc : isSuccResp (server (totpCode w))
      · simp only [hsucc, if_true]
        constructor
        · intro _
          exact ⟨w, by simp, by simpa using hskip, hsucc⟩
        · intro _; trivial
      · have hsucc2 : isSuccResp (server (totpCode w)) = false := by simpa using hsucc
        simp only [hsucc2, Bool.false_eq_true, if_false]
        rw [ih (server (totpCode w)) hsucc2]
        constructor
        · rintro ⟨w2, hw2, h⟩; exact ⟨w2, by simp [hw2], h⟩
        · rintro ⟨w2, hw2, hne, hs⟩
          rcases List.mem_cons.mp hw2 with rfl | hmem
          · exact absurd hs (by simpa using hsucc)
          · exact ⟨w2, hmem, hne, hs⟩

theorem loginResult_cases (totpCode : ℤ → Nat) (server : Nat → LoginResp) :
    loginResult totpCode server = server (totpCode 0) ∨
      ∃ w ∈ totpOffsets, loginResult totpCode server = server (totpCode w) := by
  unfold loginResult
  split
  · left; rfl
  · rcases tryWindows_mem totpCode server (totpCode 0) totpOffsets (server (totpCode 0)) with
      h | ⟨w, hw, h⟩
    · left; exact h
    · right; exact ⟨w, hw, h⟩

theorem loginResult_succ_iff (totpCode : ℤ → Nat) (server : Nat → LoginResp) :
    isSuccResp (loginResult totpCode server) = true ↔
      (isSuccResp (server (totpCode 0)) = true ∨
        ∃ w ∈ totpOffsets, totpCode w ≠ totpCode 0 ∧
          isSuccResp (server (totpCode w)) = true) := by
  unfold loginResult
  by_cases h0 : isSuccResp (server (totpCode 0)) = true
  · simp [h0]
  · have h0f : isSuccResp (server (totpCode 0)) = false := by simpa using h0
    simp only [h0f, Bool.false_eq_true, if_false]
    rw [tryWindows_succ_iff totpCode server (totpCode 0) totpOffsets _ h0f]
    simp [h0f]

/-- Claim C7: clock-skew tolerance of the login TOTP-window search.  The login
first attempts the current-window code, then iterates the fixed ordered offset
list `[-5, -4, -3, -2, -1, 0, 1, 2]` of 30-second windows, skipping any code
equal to the already-tried one and stopping at the first response that parses
to a success shape with a non-empty token; when every window fails it raises
an error to the caller.  Hence, for a server that accepts exactly the code of
the window at offset `k` (codes of distinct relevant windows being distinct),
login succeeds if and only if `k ∈ [-5, 2]`. -/
theorem claim_C7_totp_window_search (totpCode : ℤ → Nat) (server : Nat → LoginResp)
    (k : ℤ) (token : String)
    (htok : token ≠ "") (htok2 : pyStrip token ≠ "")
    (hserver : ∀ c, server c =
      if c = totpCode k then LoginResp.respToken token else LoginResp.err "fail")
    (hinj : ∀ j ∈ totpOffsets, totpCode j = totpCode k → j = k) :
    (∃ t, loginSearch totpCode server = .ok t) ↔ (-5 ≤ k ∧ k ≤ 2) := by
  have hsuccServer : ∀ c, isSuccResp (server c) = true ↔ c = totpCode k := by
    intro c
    by_cases hc : c = totpCode k <;>
      simp [hserver, hc, isSuccResp, bne_iff_ne, htok]
  have hshape : ∀ c, server c = LoginResp.respToken token ∨
      server c = LoginResp.err "fail" := by
    intro c
    by_cases hc : c = totpCode k <;> simp [hserver, hc]
  have hresShape : loginResult totpCode server = LoginResp.respToken token ∨
      loginResult totpCode server = LoginResp.err "fail" := by
    rcases loginResult_cases totpCode server with h | ⟨w, _, h⟩
    · rw [h]; exact hshape (totpCode 0)
    · rw [h]; exact hshape (totpCode w)
  have hiff1 : (∃ t, loginSearch totpCode server = .ok t) ↔
      isSuccResp (loginResult totpCode server) = true := by
    rcases hresShape with hA | hA <;>
      simp [loginSearch, hA, isSuccResp, bne_iff_ne, htok, htok2]
  rw [hiff1, loginResult_succ_iff]
  constructor
  · rintro (h0 | ⟨w, hw, _, hws⟩)
    · have : totpCode 0 = totpCode k := (hsuccServer (totpCode 0)).mp h0
      have h0k : (0 : ℤ) = k := hinj 0 (by decide) this
      omega
    · have : totpCode w = totpCode k := (hsuccServer (totpCode w)).mp hws
      have hwk : w = k := hinj w hw this
      rw [hwk] at hw
      rcases show k = -5 ∨ k = -4 ∨ k = -3 ∨ k = -2 ∨ k = -1 ∨ k = 0 ∨ k = 1 ∨ k = 2 by
        simpa [totpOffsets] using hw with h | h | h | h | h | h | h | h <;> omega
  · rintro ⟨hk1, hk2⟩
    have hkmem : k ∈ totpOffsets := by
      simp only [totpOffsets, List.mem_cons, List.mem_singleton]
      omega
    by_cases hk0 : k = 0
    · left
      rw [hsuccServer (totpCode 0), hk0]
    · right
      refine ⟨k, hkmem, ?_, by rw [hsuccServer (totpCode k)]⟩
      intro heq
      exact hk0 ((hinj 0 (by decide) heq.symm).symm)

/-- Witness for C7 at concrete inputs: with window codes `(w + 6).natAbs`
(pairwise distinct on the relevant offsets) and the server accepting exactly
the code of offset `-3`, the login succeeds; the hypotheses are discharged by
computation. -/
theorem claim_C7_totp_window_search_witness :
    ∃ t, loginSearch (fun w => (w + 6).natAbs)
      (fun c => if c = ((-3 : ℤ) + 6).natAbs then LoginResp.respToken "TOK"
                else LoginResp.err "fail") = .ok t := by
  refine (claim_C7_totp_window_search (fun w => (w + 6).natAbs) _ (-3) "TOK"
    (by decide) (by decide) (fun c => rfl) (by decide)).mpr (by norm_num)

/-- Counterexample to claim C6.  The claim says `get_token` returns the cached
token only if it is unexpired against its stored expiry, performing a fresh
login otherwise.  In the code the cache check (line 45) tests only membership
in `_token_cache`; no expiry is stored in that cache and none is consulted.
Concretely: with a cached token whose durable record expired at time 100 and
the clock at 1000000, `get_token` still returns the stale cached token and
performs zero logins. -/
theorem claim_C6_counterexample :
    getTokenRun ⟨some "OLD", some ("OLD", 100)⟩ (.err "unreachable") none 1000000 =
      (.ok "OLD", ⟨some "OLD", some ("OLD", 100)⟩, 0) ∧ (100 : ℤ) < 1000000 := by
  exact ⟨rfl, by norm_num⟩

/-- Claim C6 as amended: `get_token` returns the cached token whenever the
cache entry is present, with no expiry check of any kind (the in-memory cache
stores no expiry); only when the cache entry is absent does it perform exactly
one fresh login, and on a login response carrying a token that is non-empty
and not all whitespace it caches that token in memory and writes it with its
expiry (the response-provided value, or now + 24 hours by default) to the
durable record. -/
theorem claim_C6_cache_presence_only (st : TokenState) (resp : LoginResp)
    (respExpiresIn : Option ℤ) (now : ℤ) :
    (∀ t, st.cache = some t →
      getTokenRun st resp respExpiresIn now = (.ok t, st, 0)) ∧
    (st.cache = none →
      (getTokenRun st resp respExpiresIn now).2.2 = 1 ∧
      (∀ t, resp = .respToken t → t ≠ "" → pyStrip t ≠ "" →
        getTokenRun st resp respExpiresIn now =
          (.ok t, ⟨some t, some (t, respExpiresIn.getD (now + 24 * 3600))⟩, 1))) := by
  obtain ⟨cache, file⟩ := st
  constructor
  · rintro t rfl
    rfl
  · rintro rfl
    constructor
    · rcases resp with m | _ | t
      · rfl
      · rfl
      · simp only [getTokenRun]
        split <;> rfl
    · rintro t rfl ht1 ht2
      simp [getTokenRun, bne_iff_ne, ht1, ht2]

/-- Witness for C6 (amended) at concrete inputs: a present cache entry is
returned unchanged with zero logins; an absent cache entry triggers exactly
one login and caches the fresh token with the default 24-hour expiry. -/
theorem claim_C6_cache_presence_only_witness :
    getTokenRun ⟨some "TOK", none⟩ (.err "x") none 50 = (.ok "TOK", ⟨some "TOK", none⟩, 0) ∧
    getTokenRun ⟨none, none⟩ (.respToken "NEW") none 50 =
      (.ok "NEW", ⟨some "NEW", some ("NEW", 50 + 24 * 3600)⟩, 1) := by
  constructor
  · exact (claim_C6_cache_presence_only ⟨some "TOK", none⟩ (.err "x") none 50).1 "TOK" rfl
  · exact ((claim_C6_cache_presence_only ⟨none, none⟩ (.respToken "NEW") none 50).2 rfl).2
      "NEW" rfl (by decide) (by decide)

/-- Counterexample to claim C1.  The claim asserts that for EVERY spreadsheet
state, running `write_daily_data` twice with identical (date, group, rows)
leaves exactly `len(rows)` rows matching (date, group).  On a sheet where the
matching rows are not contiguous — header, match, other-date row, match —
the two deleteDimension ranges are built from the pre-delete snapshot but
applied sequentially, so the second range deletes an already-shifted (blank)
region and the second matching row survives; after two identical runs with a
single-row batch the sheet holds 2 matching rows, not 1. -/
theorem claim_C1_counterexample :
    ((writeDailyData
        (writeDailyData [hdrEx, rowMatchEx, rowOtherDateEx, rowMatchEx] "t1" [entryEx] "G1")
        "t2" [entryEx] "G1").filter (rowMatchesDaily "2025-05-10" "G1")).length = 2 ∧
    [entryEx].length = 1 := by
  constructor
  · decide
  · rfl

/-- Counterexample to claim C2.  The claim asserts that after
`write_hourly_data` no row of the group with a parseable date different from
today remains.  `_delete_old_hourly_data` deletes only rows with
`date_diff > 0`, i.e. dated strictly BEFORE today; a future-dated row of the
group (2025-05-11 with today = 2025-05-10) is parseable, differs from today,
and survives the call. -/
theorem claim_C2_counterexample :
    rowFutureEx ∈ writeHourlyData [hdrEx, rowFutureEx] ⟨2025, 5, 10⟩ "t1" [entryEx] "G1" ∧
    rowFutureEx.getD 1 "" = "G1" ∧
    parseDate (rowFutureEx.getD 2 "") = some ⟨2025, 5, 11⟩ ∧
    (⟨2025, 5, 11⟩ : CalDate) ≠ ⟨2025, 5, 10⟩ := by
  refine ⟨?_, rfl, by decide, by decide⟩
  decide

theorem matchingRowNumbersFrom_append (p : List String → Bool) :
    ∀ (l1 l2 : List (List String)) (i : Nat),
      matchingRowNumbersFrom p i (l1 ++ l2) =
        matchingRowNumbersFrom p i l1 ++ matchingRowNumbersFrom p (i + l1.length) l2 := by
  intro l1
  induction l1 with
  | nil => intro l2 i; simp [matchingRowNumbersFrom]
  | cons r rest ih =>
    intro l2 i
    rw [List.cons_append, matchingRowNumbersFrom, matchingRowNumbersFrom]
    by_cases hp : p r <;> simp only [hp, if_true, if_false, Bool.false_eq_true] <;>
      rw [ih l2 (i + 1)] <;> simp [Nat.add_assoc, Nat.add_comm 1 rest.length]

theorem matchingRowNumbersFrom_none (p : List String → Bool) :
    ∀ (l : List (List String)) (i : Nat), (∀ r ∈ l, p r = false) →
      matchingRowNumbersFrom p i l = [] := by
  intro l
  induction l with
  | nil => intro i _; rfl
  | cons r rest ih =>
    intro i h
    rw [matchingRowNumbersFrom]
    rw [h r (by simp)]
    simp only [Bool.false_eq_true, if_false]
    exact ih (i + 1) (fun r2 hr2 => h r2 (by simp [hr2]))

theorem matchingRowNumbersFrom_all (p : List String → Bool) :
    ∀ (l : List (List String)) (i : Nat), (∀ r ∈ l, p r = true) →
      matchingRowNumbersFrom p i l = List.range' (i + 1) l.length := by
  intro l
  induction l with
  | nil => intro i _; rfl
  | cons r rest ih =>
    intro i h
    rw [matchingRowNumbersFrom, h r (by simp), if_pos rfl]
    rw [ih (i + 1) (fun r2 hr2 => h r2 (by simp [hr2]))]
    rw [List.length_cons, List.range'_succ]

theorem groupRangesGo_consecutive (s : Nat) :
    ∀ (n e : Nat), groupRangesGo s e (List.range' (e + 1) n) = [(s, e + n)] := by
  intro n
  induction n with
  | zero => intro e; simp [List.range', groupRangesGo]
  | succ m ih =>
    intro e
    rw [List.range'_succ, groupRangesGo, if_pos rfl]
    have := ih (e + 1)
    rw [this]
    have hx : e + 1 + m = e + (m + 1) := by omega
    rw [hx]

theorem groupRanges_range' (a n : Nat) :
    groupRanges (List.range' a (n + 1)) = [(a, a + n)] := by
  rw [List.range'_succ, groupRanges]
  exact groupRangesGo_consecutive a n a

theorem filter_false_of (p : List String → Bool) :
    ∀ l : List (List String), (∀ r ∈ l, p r = false) → l.filter p = [] := by
  intro l
  induction l with
  | nil => intro _; rfl
  | cons r rest ih =>
    intro h
    rw [List.filter_cons, h r (by simp)]
    simp only [Bool.false_eq_true, if_false]
    exact ih (fun r2 hr2 => h r2 (by simp [hr2]))

theorem filter_true_of (p : List String → Bool) :
    ∀ l : List (List String), (∀ r ∈ l, p r = true) → l.filter p = l := by
  intro l
  induction l with
  | nil => intro _; rfl
  | cons r rest ih =>
    intro h
    rw [List.filter_cons, h r (by simp), if_pos rfl]
    rw [ih (fun r2 hr2 => h r2 (by simp [hr2]))]

/-- When the rows matching `p` form one contiguous block, the sequential
application of the grouped deleteDimension requests removes exactly that
block.  (With several non-contiguous blocks the requests are wrong -- see the
C1 counterexample.) -/
theorem deleteMatchingRows_contiguous (p : List String → Bool)
    (pre mid post : List (List String))
    (hpre : ∀ r ∈ pre, p r = false) (hmid : ∀ r ∈ mid, p r = true)
    (hpost : ∀ r ∈ post, p r = false) :
    deleteMatchingRows (pre ++ mid ++ post) p = pre ++ post := by
  have hidx : matchingRowNumbersFrom p 0 (pre ++ mid ++ post) =
      List.range' (pre.length + 1) mid.length := by
    rw [List.append_assoc, matchingRowNumbersFrom_append p pre (mid ++ post) 0,
      matchingRowNumbersFrom_append p mid post,
      matchingRowNumbersFrom_none p pre 0 hpre,
      matchingRowNumbersFrom_all p mid (0 + pre.length) hmid,
      matchingRowNumbersFrom_none p post _ hpost]
    simp
  rcases mid with _ | ⟨m, ms⟩
  · simp only [deleteMatchingRows, hidx]
    simp [List.range']
  · simp only [deleteMatchingRows, hidx]
    have hne : (List.range' (pre.length + 1) ((m :: ms).length)).isEmpty = false := by
      rw [show (m :: ms).length = ms.length + 1 from rfl, List.range'_succ]
      rfl
    simp only [hne, Bool.false_eq_true, if_false]
    rw [show (m :: ms).length = ms.length + 1 from rfl, groupRanges_range']
    rw [List.foldl_cons, List.foldl_nil]
    unfold applyDeleteDimension
    have ht1 : pre.length + 1 - 1 = pre.length := by omega
    have ht2 : pre.length + 1 + ms.length = (pre ++ m :: ms).length := by
      simp [List.length_append]
      omega
    congr 1
    · rw [ht1, List.append_assoc]
      exact List.take_left pre (m :: ms ++ post)
    · rw [ht2, List.drop_left]

theorem upsertBelowHeader_run (p : List String → Bool) (hdr : List String)
    (pre mid post newRows : List (List String))
    (hhdr : p hdr = false)
    (hpre : ∀ r ∈ pre, p r = false) (hmid : ∀ r ∈ mid, p r = true)
    (hpost : ∀ r ∈ post, p r = false) :
    insertRowsBelowHeader (deleteMatchingRows (hdr :: (pre ++ mid ++ post)) p) newRows =
      hdr :: (newRows ++ (pre ++ post)) := by
  have h1 : hdr :: (pre ++ mid ++ post) = (hdr :: pre) ++ mid ++ post := by simp
  rw [h1, deleteMatchingRows_contiguous p (hdr :: pre) mid post
    (by rintro r hr
        rcases List.mem_cons.mp hr with rfl | hmem
        · exact hhdr
        · exact hpre r hmem)
    hmid hpost]
  unfold insertRowsBelowHeader
  simp

theorem mkRow_matchesDaily (ts g d0 : String) (e : ReportEntry)
    (he : e.create_time = d0) :
    rowMatchesDaily d0 g (mkRow ts g e) = true := by
  simp [mkRow, rowMatchesDaily, he]

theorem rowMatchesDaily_date (d0 g : String) (r : List String)
    (h : rowMatchesDaily d0 g r = true) : (r.getD 2 "" == d0) = true := by
  unfold rowMatchesDaily at h
  simp only [Bool.and_eq_true] at h
  exact h.1.2

theorem writeDailyData_run (ts g d0 : String) (hdr : List String)
    (pre mid post : List (List String)) (data : List ReportEntry)
    (hne : data ≠ []) (hdate : ∀ ent ∈ data, ent.create_time = d0)
    (hhdr : rowMatchesDaily d0 g hdr = false)
    (hpre : ∀ r ∈ pre, rowMatchesDaily d0 g r = false)
    (hmid : ∀ r ∈ mid, rowMatchesDaily d0 g r = true)
    (hpost : ∀ r ∈ post, rowMatchesDaily d0 g r = false) :
    writeDailyData (hdr :: (pre ++ mid ++ post)) ts data g =
      hdr :: (data.map (mkRow ts g) ++ (pre ++ post)) := by
  obtain ⟨e, rest, rfl⟩ : ∃ e rest, data = e :: rest := by
    cases data with
    | nil => exact absurd rfl hne
    | cons e rest => exact ⟨e, rest, rfl⟩
  have hed : e.create_time = d0 := hdate e (by simp)
  rw [writeDailyData, hed]
  exact upsertBelowHeader_run (rowMatchesDaily d0 g) hdr pre mid post _ hhdr hpre hmid hpost

/-- Claim C1 as amended: `write_daily_data` is idempotent per (date, group)
PROVIDED the pre-existing rows matching (date, group) form one contiguous
block of the sheet (the ascending deleteDimension ranges are applied
sequentially against shifting indices, so several non-contiguous blocks are
deleted incorrectly — see the counterexample; rows written by this code are
always inserted as one block below the header, keeping the matching rows
contiguous in normal operation).  Under that proviso, and with a header row
that does not itself match: running the write twice with identical
(date, group, rows) — every entry carrying the same date — leaves the sheet
with exactly `len(rows)` rows matching (date, group), and every row of the
same group with a different date is left in place. -/
theorem claim_C1_daily_upsert (ts1 ts2 g d0 : String) (hdr : List String)
    (pre mid post : List (List String)) (data : List ReportEntry)
    (hne : data ≠ []) (hdate : ∀ ent ∈ data, ent.create_time = d0)
    (hhdr : rowMatchesDaily d0 g hdr = false)
    (hpre : ∀ r ∈ pre, rowMatchesDaily d0 g r = false)
    (hmid : ∀ r ∈ mid, rowMatchesDaily d0 g r = true)
    (hpost : ∀ r ∈ post, rowMatchesDaily d0 g r = false) :
    (((writeDailyData (writeDailyData (hdr :: (pre ++ mid ++ post)) ts1 data g)
        ts2 data g).filter (rowMatchesDaily d0 g)).length = data.length) ∧
    ((writeDailyData (writeDailyData (hdr :: (pre ++ mid ++ post)) ts1 data g)
        ts2 data g).filter (fun r => (r.getD 1 "" == g) && !(r.getD 2 "" == d0)) =
      (hdr :: (pre ++ mid ++ post)).filter
        (fun r => (r.getD 1 "" == g) && !(r.getD 2 "" == d0))) := by
  have hnew : ∀ ts : String, ∀ r ∈ data.map (mkRow ts g), rowMatchesDaily d0 g r = true := by
    intro ts r hr
    obtain ⟨e, he, rfl⟩ := List.mem_map.mp hr
    exact mkRow_matchesDaily ts g d0 e (hdate e he)
  have h1 := writeDailyData_run ts1 g d0 hdr pre mid post data hne hdate hhdr hpre hmid hpost
  have h2 := writeDailyData_run ts2 g d0 hdr [] (data.map (mkRow ts1 g)) (pre ++ post) data
    hne hdate hhdr (by simp) (hnew ts1)
    (by
      intro r hr
      rcases List.mem_append.mp hr with hm | hm
      · exact hpre r hm
      · exact hpost r hm)
  rw [h1]
  have hsheet2 : hdr :: (data.map (mkRow ts1 g) ++ (pre ++ post)) =
      hdr :: ([] ++ data.map (mkRow ts1 g) ++ (pre ++ post)) := by simp
  rw [hsheet2, h2]
  have hq : ∀ r : List String, rowMatchesDaily d0 g r = true →
      ((r.getD 1 "" == g) && !(r.getD 2 "" == d0)) = false := by
    intro r hr
    rw [rowMatchesDaily_date d0 g r hr]
    simp
  constructor
  · rw [List.filter_cons]
    rw [hhdr]
    simp only [Bool.false_eq_true, if_false]
    simp only [List.filter_append]
    rw [filter_true_of _ _ (hnew ts2), filter_false_of _ _ hpre, filter_false_of _ _ hpost]
    simp
  · simp only [List.filter_cons, List.filter_append,
      filter_false_of _ _ (fun r hr => hq r (hnew ts2 r hr)),
      filter_false_of _ _ (fun r hr => hq r (hmid r hr))]
    simp

/-- Witness for C1 (amended) at concrete inputs: a sheet holding one
contiguous matching block (preceded by an other-date row of the same group)
written twice with a one-row batch ends with exactly one matching row, and
the other-date row survives in place. -/
theorem claim_C1_daily_upsert_witness :
    (((writeDailyData (writeDailyData
        (hdrEx :: ([rowOtherDateEx] ++ [rowMatchEx] ++ [])) "t1" [entryEx] "G1")
        "t2" [entryEx] "G1").filter (rowMatchesDaily "2025-05-10" "G1")).length = 1) ∧
    ((writeDailyData (writeDailyData
        (hdrEx :: ([rowOtherDateEx] ++ [rowMatchEx] ++ [])) "t1" [entryEx] "G1")
        "t2" [entryEx] "G1").filter
          (fun r => (r.getD 1 "" == "G1") && !(r.getD 2 "" == "2025-05-10")) =
      (hdrEx :: ([rowOtherDateEx] ++ [rowMatchEx] ++ [])).filter
          (fun r => (r.getD 1 "" == "G1") && !(r.getD 2 "" == "2025-05-10"))) := by
  have h := claim_C1_daily_upsert "t1" "t2" "G1" "2025-05-10" hdrEx
    [rowOtherDateEx] [rowMatchEx] [] [entryEx]
    (by decide) (by decide) (by decide) (by decide) (by decide) (by decide)
  exact ⟨h.1, h.2⟩

/-- Claim C2 as amended: before inserting, `write_hourly_data` deletes the
group's rows whose parseable data date lies STRICTLY BEFORE today in the
reporting timezone (`date_diff > 0`); rows dated today — and also rows dated
in the future or with unparseable dates, which the original claim wrongly
said are removed — persist untouched, provided the deleted rows form one
contiguous block (the same sequential-range proviso as for the daily write).
Under those hypotheses the call rewrites the sheet to: header, then the new
batch, then every surviving pre-existing row in order. -/
theorem claim_C2_hourly_freshness (today : CalDate) (ts g : String)
    (hdr : List String) (pre mid post : List (List String)) (data : List ReportEntry)
    (hne : data ≠ [])
    (hhdr : rowMatchesHourly today g hdr = false)
    (hpre : ∀ r ∈ pre, rowMatchesHourly today g r = false)
    (hmid : ∀ r ∈ mid, rowMatchesHourly today g r = true)
    (hpost : ∀ r ∈ post, rowMatchesHourly today g r = false) :
    writeHourlyData (hdr :: (pre ++ mid ++ post)) today ts data g =
      hdr :: (data.map (mkRow ts g) ++ (pre ++ post)) := by
  obtain ⟨e, rest, rfl⟩ : ∃ e rest, data = e :: rest := by
    cases data with
    | nil => exact absurd rfl hne
    | cons e rest => exact ⟨e, rest, rfl⟩
  rw [writeHourlyData]
  exact upsertBelowHeader_run (rowMatchesHourly today g) hdr pre mid post _
    hhdr hpre hmid hpost

/-- Witness for C2 (amended) at concrete inputs: with today = 2025-05-10, a
sheet holding a future-dated row (kept) and a yesterday-dated row (the
contiguous deleted block), the hourly write removes exactly the old row and
inserts the new batch below the header. -/
theorem claim_C2_hourly_freshness_witness :
    writeHourlyData (hdrEx :: ([rowFutureEx] ++ [rowOtherDateEx] ++ [])) ⟨2025, 5, 10⟩
        "t1" [entryEx] "G1" =
      hdrEx :: ([entryEx].map (mkRow "t1" "G1") ++ ([rowFutureEx] ++ [])) := by
  exact claim_C2_hourly_freshness ⟨2025, 5, 10⟩ "t1" "G1" hdrEx
    [rowFutureEx] [rowOtherDateEx] [] [entryEx]
    (by decide) (by decide) (by decide) (by decide) (by decide)

/-- Counterexample to claim C10.  The claim says any exception raised during
the remote sub-operations is caught and converted to a False return.  But an
exception in the delete-phase read is caught INSIDE `_delete_rows_by_date`,
which returns False — a value `write_daily_data` ignores (line 225) — and the
write then proceeds and returns True when the remaining calls succeed.  (The
totality part of the claim does hold: see the amended theorem.) -/
theorem claim_C10_counterexample :
    oracleReadFails.readRows = .error () ∧
    writeDailyRun true [entryEx] "G1" oracleReadFails none = (true, 4) := by
  exact ⟨rfl, rfl⟩

theorem exists_cons_of_ne_nil {α : Type} {l : List α} (h : l ≠ []) :
    ∃ e rest, l = e :: rest := by
  cases l with
  | nil => exact absurd rfl h
  | cons e rest => exact ⟨e, rest, rfl⟩

theorem getSheetIdRun_lookup_none (o : SheetsOracle)
    (hsp : o.getSpreadsheet = .error () ∨ o.getSpreadsheet = .ok none) :
    getSheetIdRun o none = (none, 1, none) := by
  rcases hsp with h | h <;> simp [getSheetIdRun, h]

theorem sheetIdCallsCount_none (o : SheetsOracle)
    (hsp : o.getSpreadsheet = .error () ∨ o.getSpreadsheet = .ok none) :
    ∀ k, (sheetIdCallsCount o k none).2 = none := by
  intro k
  induction k with
  | zero => rfl
  | succ n ih =>
    simp only [sheetIdCallsCount, getSheetIdRun_lookup_none o hsp]
    exact ih

theorem deleteMatchingRun_cache_none (o : SheetsOracle) (p : List String → Bool)
    (hsp : o.getSpreadsheet = .error () ∨ o.getSpreadsheet = .ok none) :
    (deleteMatchingRun o p none).2.2 = none := by
  unfold deleteMatchingRun
  rcases hrr : o.readRows with u | values
  · rfl
  · by_cases hv : values.isEmpty = true
    · simp [hv]
    · by_cases hidx : (matchingRowNumbersFrom p 0 values).isEmpty = true
      · simp [hv, hidx]
      · rcases hbd : o.batchDelete with u | u <;>
          simp [hv, hidx, hbd, sheetIdCallsCount_none o hsp]

/-- Claim C10 as amended: `write_daily_data` and `write_hourly_data` always
return a boolean and never propagate an exception.  They return False with
zero remote calls when the sheets service is uninitialized or the batch is
empty; they return False when `_get_sheet_id` yields no id (exception or
missing sheet, with an empty cache), or when the insertDimension or values
update raises.  An exception inside the delete phase, however, is swallowed
by the helper (its False result is ignored) and does NOT force a False
return. -/
theorem claim_C10_totality :
    (∀ data g o cache, writeDailyRun false data g o cache = (false, 0)) ∧
    (∀ s g o cache, writeDailyRun s [] g o cache = (false, 0)) ∧
    (∀ today data g o cache, writeHourlyRun false today data g o cache = (false, 0)) ∧
    (∀ s today g o cache, writeHourlyRun s today [] g o cache = (false, 0)) ∧
    (∀ data g o cache, data ≠ [] → o.insertDim = .error () →
      (writeDailyRun true data g o cache).1 = false) ∧
    (∀ data g o cache, data ≠ [] → o.updateValues = .error () →
      (writeDailyRun true data g o cache).1 = false) ∧
    (∀ data g o, data ≠ [] → (o.getSpreadsheet = .error () ∨ o.getSpreadsheet = .ok none) →
      (writeDailyRun true data g o none).1 = false) ∧
    (∀ today data g o cache, data ≠ [] → o.insertDim = .error () →
      (writeHourlyRun true today data g o cache).1 = false) ∧
    (∀ today data g o cache, data ≠ [] → o.updateValues = .error () →
      (writeHourlyRun true today data g o cache).1 = false) := by
  refine ⟨fun data g o cache => by cases data <;> rfl,
    fun s g o cache => by cases s <;> rfl,
    fun today data g o cache => by cases data <;> rfl,
    fun s today g o cache => by cases s <;> rfl,
    ?_, ?_, ?_, ?_, ?_⟩
  · intro data g o cache hne hins
    obtain ⟨e, rest, rfl⟩ := exists_cons_of_ne_nil hne
    simp only [writeDailyRun]
    rcases hsid : (getSheetIdRun o
        (deleteMatchingRun o (rowMatchesDaily e.create_time g) cache).2.2).1 with _ | id
    · simp [hsid]
    · simp [hsid, hins]
  · intro data g o cache hne hupd
    obtain ⟨e, rest, rfl⟩ := exists_cons_of_ne_nil hne
    simp only [writeDailyRun]
    rcases hsid : (getSheetIdRun o
        (deleteMatchingRun o (rowMatchesDaily e.create_time g) cache).2.2).1 with _ | id
    · simp [hsid]
    · rcases hins : o.insertDim with u | u
      · simp [hsid, hins]
      · simp [hsid, hins, hupd]
  · intro data g o hne hsp
    obtain ⟨e, rest, rfl⟩ := exists_cons_of_ne_nil hne
    simp only [writeDailyRun]
    have hcache : (deleteMatchingRun o (rowMatchesDaily e.create_time g) none).2.2 = none :=
      deleteMatchingRun_cache_none o _ hsp
    simp [hcache, getSheetIdRun_lookup_none o hsp]
  · intro today data g o cache hne hins
    obtain ⟨e, rest, rfl⟩ := exists_cons_of_ne_nil hne
    simp only [writeHourlyRun]
    rcases hsid : (getSheetIdRun o
        (deleteMatchingRun o (rowMatchesHourly today g) cache).2.2).1 with _ | id
    · simp [hsid]
    · simp [hsid, hins]
  · intro today data g o cache hne hupd
    obtain ⟨e, rest, rfl⟩ := exists_cons_of_ne_nil hne
    simp only [writeHourlyRun]
    rcases hsid : (getSheetIdRun o
        (deleteMatchingRun o (rowMatchesHourly today g) cache).2.2).1 with _ | id
    · simp [hsid]
    · rcases hins : o.insertDim with u | u
      · simp [hsid, hins]
      · simp [hsid, hins, hupd]

/-- Witness for C10 (amended) at concrete inputs: uninitialized service and
empty batch return False with zero remote calls, and a raising
insertDimension yields False. -/
theorem claim_C10_totality_witness :
    writeDailyRun false [entryEx] "G1" oracleReadFails none = (false, 0) ∧
    writeDailyRun true [] "G1" oracleReadFails none = (false, 0) ∧
    (writeDailyRun true [entryEx] "G1" oracleInsertFails none).1 = false := by
  refine ⟨claim_C10_totality.1 [entryEx] "G1" oracleReadFails none,
    claim_C10_totality.2.1 true "G1" oracleReadFails none,
    claim_C10_totality.2.2.2.2.1 [entryEx] "G1" oracleInsertFails none (by decide) rfl⟩

/-- Regression check of the MD5 embedding against the RFC 1321 test value for
the empty message. -/
theorem md5_check_empty : md5HexUpper (strUtf8 "") = "D41D8CD98F00B204E9800998ECF8427E" := by
  decide

/-- Regression check of the MD5 embedding against the RFC 1321 test value for
"abc". -/
theorem md5_check_abc :
    md5HexUpper (strUtf8 "abc") = "900150983CD24FB0D6963F7D28E17F72" := by
  decide

/-- Counterexample to claim C9.  `generate_signature` drops every list-valued
field from the signing string (the `not isinstance(v, list)` guard on line
74), which the claim's reference definition — canonical JSON of all fields
except timestamp/signature/track — retains.  On data with one list field the
two strings, hence the two MD5 signatures, differ. -/
theorem claim_C9_counterexample :
    codeSigString sigDataEx = "\x7b\"userName\":\"u\"\x7d" ∧
    specCanonicalString sigDataEx = "\x7b\"a\":[\"x\"],\"userName\":\"u\"\x7d" ∧
    generateSignature sigDataEx = "5497146601334678817FF8C79847800D" ∧
    specSignature sigDataEx = "B102CAD8B667D46F54C0215E63F341D3" ∧
    generateSignature sigDataEx ≠ specSignature sigDataEx := by
  refine ⟨by decide, by decide, by decide, by decide, by decide⟩

theorem filterMap_ite_form {α β : Type} (F : α → Option β) (q : α → Bool) (G : α → β)
    (h : ∀ x, F x = if q x then some (G x) else none) :
    ∀ l : List α, l.filterMap F = (l.filter q).map G := by
  intro l
  induction l with
  | nil => simp
  | cons x tl ih =>
    rw [List.filterMap_cons, List.filter_cons, h x]
    by_cases hq : q x <;> simp [hq, ih]

theorem innerSigString_eq (inner : List (String × ScalarVal)) :
    innerSigString inner =
      "\x7b" ++ commaJoin (((sortFields inner).filter
        (fun kv => !(sigExcluded kv.1))).map
          (fun kv => jsonQuote kv.1 ++ ":" ++ scalarDump kv.2)) ++ "\x7d" := by
  unfold innerSigString
  rw [filterMap_ite_form _ (fun kv => !(sigExcluded kv.1))
    (fun kv => jsonQuote kv.1 ++ ":" ++ scalarDump kv.2) ?_ (sortFields inner)]
  intro kv
  by_cases he : sigExcluded kv.1 <;> simp [he]

theorem codeSigString_eq_amended (fs : List (String × FieldVal)) :
    codeSigString fs = amendedCanonicalString fs := by
  unfold codeSigString amendedCanonicalString
  rw [filterMap_ite_form _ (fun kv => !(sigExcluded kv.1) && !(isListVal kv.2))
    (fun kv => jsonQuote kv.1 ++ ":" ++ amendedValueDump kv.2) ?_ (sortFields fs)]
  intro kv
  obtain ⟨k, v⟩ := kv
  by_cases he : sigExcluded k
  · simp [he]
  · cases v with
    | scalar w => simp [he, isListVal, amendedValueDump]
    | list es => simp [he, isListVal]
    | dict inner => simp [he, isListVal, amendedValueDump, innerSigString_eq inner]

/-- Claim C9 as amended: the login-request signature equals the uppercase
hexadecimal MD5 of the UTF-8 bytes of the key-sorted, whitespace-free JSON of
the request fields excluding timestamp, signature, track AND every
list-valued field (the `not isinstance(v, list)` guard), with a nested
dictionary value embedded as a JSON string of its own key-sorted filtered
dump rather than as a canonical JSON object. -/
theorem claim_C9_signature (fs : List (String × FieldVal)) :
    generateSignature fs = amendedSignature fs := by
  unfold generateSignature amendedSignature
  rw [codeSigString_eq_amended fs]

theorem workers_singleton {workers : List (Option Nat)} {j : Nat} {x : Option Nat}
    (hlen : workers.length ≤ 1) (hget : workers[j]? = some x) :
    workers = [x] ∧ j = 0 := by
  rcases workers with _ | ⟨w, ws⟩
  · simp at hget
  · rcases ws with _ | ⟨w2, ws2⟩
    · have hj : j = 0 := by
        by_contra hne
        obtain ⟨j2, rfl⟩ : ∃ j2, j = j2 + 1 := ⟨j - 1, by omega⟩
        simp at hget
      subst hj
      simp at hget
      simp [hget]
    · simp at hlen

theorem queueInv_init (f : Nat → Except Unit Nat) : QueueInv f initialQueueState := by
  refine ⟨fun _ => rfl, by simp [initialQueueState], by simp [initialQueueState, inFlight], ?_⟩
  intro c hc
  simp [initialQueueState] at hc

theorem queueInv_step (f : Nat → Except Unit Nat) (s s2 : QueueState)
    (hinv : QueueInv f s) (hs : QueueStep f s s2) : QueueInv f s2 := by
  obtain ⟨h1, h2, h3, h4⟩ := hinv
  cases hs with
  | submit =>
    refine ⟨h1, h2, ?_, h4⟩
    simp only [inFlight] at h3 ⊢
    rw [List.range_succ, ← h3]
    simp [List.append_assoc]
  | workerStartDead h hf =>
    refine ⟨?_, h2, h3, h4⟩
    intro hff
    rw [hf] at hff
    cases hff
  | workerStartLive h hf =>
    have hw : s.workers = [] := h1 hf
    refine ⟨?_, ?_, ?_, h4⟩
    · intro hff
      exact nomatch hff
    · rw [hw]
      simp
    · simp only [inFlight, hw] at h3 ⊢
      simpa using h3
  | beginOp j i rest hw hq =>
    obtain ⟨hws, hj⟩ := workers_singleton h2 hw
    subst hj
    refine ⟨?_, ?_, ?_, h4⟩
    · intro hff
      have hcontra := h1 hff
      rw [hcontra] at hws
      cases hws
    · simp [hws]
    · simp only [inFlight] at h3 ⊢
      rw [hws, hq] at h3
      rw [hws]
      simp at h3 ⊢
      simpa using h3
  | finishOp j i hw =>
    obtain ⟨hws, hj⟩ := workers_singleton h2 hw
    subst hj
    refine ⟨?_, ?_, ?_, ?_⟩
    · intro hff
      have hcontra := h1 hff
      rw [hcontra] at hws
      cases hws
    · simp [hws]
    · simp only [inFlight] at h3 ⊢
      rw [hws] at h3
      rw [hws]
      simp at h3 ⊢
      simpa [List.append_assoc] using h3
    · intro c hc
      rcases List.mem_append.mp hc with hm | hm
      · exact h4 c hm
      · simp only [List.mem_singleton] at hm
        rw [hm]

theorem queueInv_reachable (f : Nat → Except Unit Nat) (s : QueueState)
    (h : QueueReachable f s) : QueueInv f s := by
  induction h with
  | init => exact queueInv_init f
  | step s s2 h hs ih => exact queueInv_step f s s2 ih hs

theorem range_prefix_eq {l1 l2 : List Nat} {n : Nat} (h : l1 ++ l2 = List.range n) :
    l1 = List.range l1.length := by
  have h2 : l1.length ≤ n := by
    have hlen := congrArg List.length h
    simp at hlen
    omega
  have h1 : l1 = (List.range n).take l1.length := by
    rw [← h, List.take_left]
  rw [h1, List.take_range]
  simp [Nat.min_eq_left h2]

/-- Claim C3: the operation queue serializes all tabular-service calls.  In
every state reachable by any interleaving of submissions, worker starts,
dequeues and completions: at most one worker task is ever live (the
`_queue_worker_running` guard kills later starters), at most one submitted
operation is executing at any instant, the resolved futures are exactly the
first `k` submitted operations in submission (FIFO) order, and each future
holds its own operation's result or exception. -/
theorem claim_C3_queue_serialization (f : Nat → Except Unit Nat) (s : QueueState)
    (h : QueueReachable f s) :
    s.workers.length ≤ 1 ∧
    (inFlight s).length ≤ 1 ∧
    s.completions.map Prod.fst = List.range s.completions.length ∧
    (∀ c ∈ s.completions, c.2 = f c.1) := by
  obtain ⟨h1, h2, h3, h4⟩ := queueInv_reachable f s h
  refine ⟨h2, ?_, ?_, h4⟩
  · rcases hws : s.workers with _ | ⟨w, ws⟩
    · simp [inFlight, hws]
    · rcases ws with _ | ⟨w2, ws2⟩
      · rcases w with _ | i <;> simp [inFlight, hws]
      · rw [hws] at h2
        simp at h2
  · rw [List.append_assoc] at h3
    have := range_prefix_eq h3
    simpa using this

/-- Witness for C3 at a concrete input: the state reached by submitting
operation 0, starting the worker, dequeuing and completing it satisfies all
four conclusions. -/
theorem claim_C3_queue_serialization_witness :
    (QueueState.mk true 0 [none] [] 1 [(0, Except.ok 0)]).workers.length ≤ 1 ∧
    (inFlight (QueueState.mk true 0 [none] [] 1 [(0, Except.ok 0)])).length ≤ 1 ∧
    (QueueState.mk true 0 [none] [] 1 [(0, Except.ok 0)]).completions.map Prod.fst =
      List.range (QueueState.mk true 0 [none] [] 1 [(0, Except.ok 0)]).completions.length ∧
    (∀ c ∈ (QueueState.mk true 0 [none] [] 1 [(0, Except.ok 0)]).completions,
      c.2 = (fun i => Except.ok i) c.1) := by
  have h0 := @QueueReachable.init (fun i => Except.ok i)
  have h1 := QueueReachable.step _ _ h0 (QueueStep.submit initialQueueState)
  have h2 := QueueReachable.step _ _ h1
    (QueueStep.workerStartLive _ (by decide) rfl)
  have h3 := QueueReachable.step _ _ h2
    (QueueStep.beginOp _ 0 0 [] rfl rfl)
  have h4 := QueueReachable.step _ _ h3
    (QueueStep.finishOp _ 0 0 rfl)
  exact claim_C3_queue_serialization (fun i => Except.ok i)
    (QueueState.mk true 0 [none] [] 1 [(0, Except.ok 0)]) h4
